import Mathlib

/-!
# Verification of the simple_serde core against its specification

Shallow embedding of the `simple_serde` serialization engine: the intermediate
text value model (`TextRepr`, from `src/text/mod.rs`), the TOML-like dialect
printer/parser (`src/text/toml.rs`), the binary codec with keyed access
(`src/bin.rs`), the integer conversion helpers (`src/primitives.rs`) and the
sequence-container decode loop (`src/common.rs`).

Modelling conventions:
* Rust `HashMap<String, _>` values are modelled as association lists whose list
  order stands for the map's iteration order; `insert` replaces the value of an
  existing key in place and appends new keys at the back.
* `VecDeque` becomes `List` (front = head).
* Byte buffers are `List Nat` whose elements are kept below 256 by the
  serializers; machine arithmetic is explicit (`% 256`, big-endian folds).
* Fallible Rust code returns `Except`; code paths that `panic!`, fail an
  `assert!`/`debug_assert!`, `unwrap()` a `None`, or index out of bounds are
  modelled with the explicit `RunResult.panicked` outcome.
* `f64` is modelled as `Rat`: exact float formatting/parsing is out of scope
  and no theorem below depends on a float code path.
* UTF-8 is modelled on its ASCII fragment (code point = byte); every concrete
  input used in a theorem is ASCII.
-/

namespace SimpleSerde

/-- `DeserializationErrorKind` from `src/lib.rs`. `Nested(Box<DeserializationError>)`
is flattened into the `nested` constructor carrying the inner error's field and
kind; `FromUTF8Error`'s payload (the offending bytes) is dropped as it never
influences control flow. -/
inductive DeserializationErrorKind : Type where
  | missingField
  | invalidType (expected actual : String)
  | noMatch (actual : String)
  | fromUTF8Error
  | unexpectedEOF
  | invalidFormat (reason : String)
  | nested (field : Option String) (kind : DeserializationErrorKind)
deriving DecidableEq

/-- `DeserializationError` from `src/lib.rs`: an error kind optionally annotated
with the field it occurred on. -/
structure DeserializationError : Type where
  field : Option String
  kind : DeserializationErrorKind
deriving DecidableEq

/-- Outcome of running a piece of code that may return a value, return a
value-level error, or panic (Rust `panic!`, failed `assert!`, `unwrap` on
`None`, out-of-bounds `drain`). `outOfFuel` is an artifact of fuel-based
recursion and is unreachable for the fuel bounds used below. -/
inductive RunResult (α : Type) : Type where
  | ok (a : α)
  | error (e : DeserializationError)
  | panicked
  | outOfFuel
deriving DecidableEq

/-- The intermediate value model `TextRepr` from `src/text/mod.rs`.
`Table(HashMap<String, Self>)` is an association list in iteration order,
`Array(VecDeque<TextRepr>)` a list with its front at the head. `Float(f64)`
carries a `Rat` (see the module comment). -/
inductive TextRepr : Type where
  | empty
  | str (s : String)
  | integer (n : Int)
  | float (q : Rat)
  | boolean (b : Bool)
  | table (m : List (String × TextRepr))
  | array (xs : List TextRepr)

namespace TextRepr

/-- Discriminator for the `Array` variant (used to phrase the non-array case of
`pull_value`). -/
def isArray : TextRepr → Bool
  | .array _ => true
  | _ => false

/-- Discriminator for the `Table` variant. -/
def isTable : TextRepr → Bool
  | .table _ => true
  | _ => false

end TextRepr

/-- `HashMap::insert` on the association-list model: replace the value of an
existing key in place, otherwise append the new entry at the back. -/
def listInsert (m : List (String × TextRepr)) (k : String) (v : TextRepr) :
    List (String × TextRepr) :=
  if m.any (fun kv => kv.1 = k) then
    m.map (fun kv => if kv.1 = k then (k, v) else kv)
  else
    m ++ [(k, v)]

namespace TextRepr

/-- `TextRepr::pull_value` (src/text/mod.rs:64-70). Note the source's
`Table(_) => InvalidType` arm is commented out, so a table falls into the
catch-all arm and is taken whole, leaving `Empty` behind. Returns the pulled
value together with the mutated receiver. -/
def pullValue : TextRepr → Except DeserializationErrorKind (TextRepr × TextRepr)
  | .array [] => .error .unexpectedEOF
  | .array (x :: xs) => .ok (x, .array xs)
  | t => .ok (t, .empty)

/-- `TextRepr::pull_entry` (src/text/mod.rs:72-77). -/
def pullEntry (t : TextRepr) (key : String) :
    Except DeserializationErrorKind (TextRepr × TextRepr) :=
  match t with
  | .table m =>
    match m.find? (fun kv => kv.1 = key) with
    | some kv => .ok (kv.2, .table (m.eraseP (fun kv => kv.1 = key)))
    | none => .error .missingField
  | _ => .error (.invalidType "table" "non-table")

/-- `TextRepr::push_value` (src/text/mod.rs:79-95). Pushing onto a `Table`
panics (`none`). Promoting a scalar executes `push_front(value)` then
`push_front(other)`, so the freshly pushed value ends up at the FRONT of the
new array, before the previously held value. -/
def pushValue : TextRepr → TextRepr → Option TextRepr
  | .empty, other => some other
  | .array xs, other => some (.array (xs ++ [other]))
  | .table _, _ => none
  | t, other => some (.array [other, t])

/-- `TextRepr::push_entry` (src/text/mod.rs:97-107). Pushing a named value onto
a non-empty non-table value panics (`none`). -/
def pushEntry : TextRepr → String → TextRepr → Option TextRepr
  | .empty, key, other => some (.table [(key, other)])
  | .table m, key, other => some (.table (listInsert m key other))
  | _, _, _ => none

/-- Core of `TextRepr::push_entry_path` (src/text/mod.rs:109-129), taking the
path already reversed so that the source's `path.pop()` (pop from the BACK,
outermost segment first) becomes taking the head. An empty path fails the
`assert!` (`none`), and descending into a non-table, non-empty value panics.
The source's `Empty` arm replaces the receiver by an empty table and retries;
that retry is inlined here as running the table logic on `[]`. -/
def pushEntryPathRev (t : TextRepr) (rev : List String) (v : TextRepr) :
    Option TextRepr :=
  match rev with
  | [] => none
  | [k] => pushEntry t k v
  | k :: k2 :: rest =>
    let m? : Option (List (String × TextRepr)) :=
      match t with
      | .empty => some []
      | .table m => some m
      | _ => none
    match m? with
    | none => none
    | some m =>
      let m' := if m.any (fun kv => kv.1 = k) then m
                else m ++ [(k, .table [])]
      match m'.find? (fun kv => kv.1 = k) with
      | none => none
      | some kv =>
        match pushEntryPathRev kv.2 (k2 :: rest) v with
        | none => none
        | some newSub => some (.table (listInsert m' k newSub))

/-- `TextRepr::push_entry_path` (src/text/mod.rs:109-129): the last path
segment popped first is the head of the reversed path. -/
def pushEntryPath (t : TextRepr) (path : List String) (v : TextRepr) :
    Option TextRepr :=
  pushEntryPathRev t path.reverse v

end TextRepr

/-! ## Scalar token classification (`TextRepr::from_str_value`, src/text/mod.rs:131-160) -/

/-- Rust `str::trim`: drop leading and trailing whitespace (the ASCII
whitespace characters; Unicode spaces beyond them are not modelled). Defined
on the character list so that it evaluates inside the kernel. -/
def rustTrim (s : String) : String :=
  String.mk ((((s.toList.dropWhile Char.isWhitespace).reverse.dropWhile
    Char.isWhitespace).reverse))

/-- Rust `str::starts_with(char)`. -/
def headIs (s : String) (c : Char) : Bool :=
  match s.toList with
  | [] => false
  | c' :: _ => c' = c

/-- Rust `str::ends_with(char)`. -/
def lastIs (s : String) (c : Char) : Bool :=
  match s.toList.getLast? with
  | none => false
  | some c' => c' = c

/-- String length as character count (= byte count on the ASCII fragment). -/
def strLen (s : String) : Nat := s.toList.length

/-- Fold a digit list into its decimal value. -/
def parseDigits (cs : List Char) : Nat :=
  cs.foldl (fun acc c => acc * 10 + (c.toNat - 48)) 0

/-- Rust `bool::from_str`: exactly the strings "true" and "false". -/
def parseBoolToken (s : String) : Option Bool :=
  if s = "true" then some true else if s = "false" then some false else none

/-- Rust `i64::from_str`: optional sign, one or more decimal digits, value
within the i64 range (out-of-range input is a parse error, not a wrap). -/
def parseI64 (s : String) : Option Int :=
  let cs := s.toList
  let signDigits : Option (Int × List Char) :=
    match cs with
    | [] => none
    | '-' :: rest => some (-1, rest)
    | '+' :: rest => some (1, rest)
    | _ => some (1, cs)
  match signDigits with
  | none => none
  | some sd =>
    if sd.2 ≠ [] ∧ sd.2.all Char.isDigit then
      let v : Int := sd.1 * (parseDigits sd.2 : Nat)
      if -(2 ^ 63) ≤ v ∧ v ≤ 2 ^ 63 - 1 then some v else none
    else none

/-- Exponent/fraction tail of the float grammar: `ds1 . ds2 [e[sign]digits]`.
The significand's exact value is kept as a rational. -/
def parseFloatExp (sign : Int) (ds1 ds2 : List Char) (rest : List Char) : Option Rat :=
  let base : Rat := (sign * (parseDigits (ds1 ++ ds2) : Nat) : Int) / ((10 : Rat) ^ ds2.length)
  match rest with
  | [] => some base
  | e :: r =>
    if e = 'e' ∨ e = 'E' then
      let signDigits : Int × List Char :=
        match r with
        | '-' :: rr => (-1, rr)
        | '+' :: rr => (1, rr)
        | _ => (1, r)
      let eds := signDigits.2.takeWhile Char.isDigit
      if eds = [] ∨ signDigits.2.drop eds.length ≠ [] then none
      else if signDigits.1 = 1 then some (base * (10 : Rat) ^ parseDigits eds)
      else some (base / (10 : Rat) ^ parseDigits eds)
    else none

/-- Rust `f64::from_str`, restricted to the finite decimal grammar
`[sign] (digits [. digits] | . digits) [exponent]` with the value kept exact as
a `Rat`. The `inf`/`NaN` forms and binary rounding of f64 are not modelled; no
theorem below exercises a float path. -/
def parseFloatToken (s : String) : Option Rat :=
  let cs0 := s.toList
  let signRest : Int × List Char :=
    match cs0 with
    | '-' :: r => (-1, r)
    | '+' :: r => (1, r)
    | _ => (1, cs0)
  let ds1 := signRest.2.takeWhile Char.isDigit
  let cs1 := signRest.2.drop ds1.length
  match cs1 with
  | '.' :: r =>
    let ds2 := r.takeWhile Char.isDigit
    let cs2 := r.drop ds2.length
    if ds1 = [] ∧ ds2 = [] then none
    else parseFloatExp signRest.1 ds1 ds2 cs2
  | _ =>
    if ds1 = [] then none else parseFloatExp signRest.1 ds1 [] cs1

/-- `TextRepr::from_str_value` (src/text/mod.rs:131-160): empty input is
`UnexpectedEOF`; a leading quote demands a trailing quote (the one-character
string `"` makes the source `drain(1..0)`, which panics); otherwise trial
parses in the order boolean → integer → float, with total failure reported as
`InvalidType`. -/
def fromStrValue (data : String) : RunResult TextRepr :=
  if data = "" then .error ⟨none, .unexpectedEOF⟩
  else if headIs data '"' then
    if ¬ lastIs data '"' then
      .error ⟨none, .invalidFormat "String is missing terminating apostrophe"⟩
    else if strLen data < 2 then .panicked
    else .ok (.str (String.mk ((data.toList.drop 1).dropLast)))
  else if lastIs data '"' then
    .error ⟨none, .invalidFormat "String is missing starting apostrophe"⟩
  else
    match parseBoolToken data with
    | some b => .ok (.boolean b)
    | none =>
      match parseI64 data with
      | some n => .ok (.integer n)
      | none =>
        match parseFloatToken data with
        | some q => .ok (.float q)
        | none => .error ⟨none, .invalidType "todo!" "todo!"⟩

/-! ## TOML-like printer (`src/text/toml.rs`) -/

/-- One step of `delimit_comma_split`'s character fold (src/text/toml.rs:41-57):
a double quote toggles the in-string flag; a top-level comma pushes the current
item and starts the next one; the scanned character is then appended to the
current item in every case (so each item after the first starts with the comma
that preceded it). State: (in_string, item, out). -/
def delimitCommaSplitStep (st : Bool × String × List String) (c : Char) :
    Bool × String × List String :=
  if c = '"' then (!st.1, st.2.1.push c, st.2.2)
  else if st.1 = false ∧ c = ',' then (st.1, String.singleton c, st.2.2 ++ [st.2.1])
  else (st.1, st.2.1.push c, st.2.2)

/-- `delimit_comma_split` (src/text/toml.rs:41-57). The function returns `out`
as accumulated by the fold; the item in progress when the input ends is never
pushed. -/
def delimitCommaSplit (data : String) : List String :=
  (data.toList.foldl delimitCommaSplitStep (false, "", [])).2.2

/-- Character escaping of Rust's `Debug` formatting for `String` (used by the
`format!("{:?}", ...)` array printer). Restricted to the escapes relevant to
this grammar; other control characters are not modelled. -/
def debugEscapeChar (c : Char) : String :=
  if c = '"' then "\\\""
  else if c = '\\' then "\\\\"
  else if c = '\n' then "\\n"
  else if c = '\t' then "\\t"
  else if c = '\r' then "\\r"
  else String.singleton c

/-- Rust `Debug` for `String`: the content escaped, wrapped in double quotes. -/
def debugEscape (s : String) : String :=
  String.join (s.toList.map debugEscapeChar)

/-- Rust `Debug` for `Vec<String>`: `[` item `, ` item `]` with each item
printed as a quoted escaped string. This is exactly what
`format!("{:?}", vec)` produces in `TextRepr::to_toml`'s array branch. -/
def debugFormatList (items : List String) : String :=
  "[" ++ String.intercalate ", " (items.map (fun s => "\"" ++ debugEscape s ++ "\"")) ++ "]"

/-- Display of an f64 modelled as `Rat`; integral values print without a
fractional part, matching Rust for those. Non-integral formatting is
abstracted (no theorem depends on it). -/
def ratDisplay (q : Rat) : String :=
  if q.den = 1 then toString q.num else toString q.num ++ "/" ++ toString q.den

mutual

/-- The non-table branches of `TextRepr::to_toml` (src/text/toml.rs:64-118):
scalars render literally, arrays through the `Debug` list format. The `table`
case returns `""`: `to_toml` handles tables in its own branch, and the source
`debug_assert!`s that arrays never contain tables, so this arm is unreachable
for the values `to_toml` ever passes here (`mapEntriesRecursive_not_table`
below). -/
def tomlValue : TextRepr → String
  | .empty => ""
  | .str x => "\"" ++ x ++ "\""
  | .integer x => toString x
  | .float x => ratDisplay x
  | .boolean x => if x then "true" else "false"
  | .array xs => debugFormatList (tomlValueList xs)
  | .table _ => ""

/-- `to_toml` mapped over an array's elements. -/
def tomlValueList : List TextRepr → List String
  | [] => []
  | x :: xs => tomlValue x :: tomlValueList xs

end

/-- Insertion into the `entries: HashMap<Vec<String>, HashMap<String, TextRepr>>`
accumulator of `map_entries_recursive`: find the group of the root path and
insert the leaf into it, or start a new group. -/
def insertEntryGroups (entries : List (List String × List (String × TextRepr)))
    (root : List String) (key : String) (v : TextRepr) :
    List (List String × List (String × TextRepr)) :=
  if entries.any (fun g => g.1 = root) then
    entries.map (fun g => if g.1 = root then (g.1, listInsert g.2 key v) else g)
  else entries ++ [(root, [(key, v)])]

mutual

/-- `map_entries_recursive` (src/text/toml.rs:16-38): depth-first flattening of
nested tables into groups keyed by their dotted root path; non-table values
become leaves of the group of the current root. -/
def mapEntriesRecursive : List (String × TextRepr) → List String →
    List (List String × List (String × TextRepr)) →
    List (List String × List (String × TextRepr))
  | [], _, entries => entries
  | (key, v) :: rest, root, entries =>
    mapEntriesRecursive rest root (mapEntryValue key v root entries)

/-- The body of `map_entries_recursive`'s loop for one `(key, value)` entry:
recurse into a table value with the extended root path, otherwise record the
leaf under the current root. -/
def mapEntryValue (key : String) (v : TextRepr) (root : List String)
    (entries : List (List String × List (String × TextRepr))) :
    List (List String × List (String × TextRepr)) :=
  match v with
  | .table x => mapEntriesRecursive x (root ++ [key]) entries
  | v' => insertEntryGroups entries root key v'

end

/-- Sort key of `entries.sort_by(|x, y| x.0.len().cmp(&y.0.len()))`: the root
path's length (= section depth). -/
def groupLen (g : List String × List (String × TextRepr)) : Nat := g.1.length

/-- Stable insertion of a group into a sorted group list: the new group goes
after every strictly shorter path and before paths of equal or greater
length (so earlier groups of equal depth stay first). -/
def insertGroupSorted (g : List String × List (String × TextRepr)) :
    List (List String × List (String × TextRepr)) →
    List (List String × List (String × TextRepr))
  | [] => [g]
  | x :: xs => if groupLen x < groupLen g then x :: insertGroupSorted g xs else g :: x :: xs

/-- The `sort_by` call of `to_toml` (src/text/toml.rs:76): Rust's stable sort
by ascending path length, modelled by stable insertion sort (stable sorts with
the same comparator agree on every input). -/
def sortGroupsByLen : List (List String × List (String × TextRepr)) →
    List (List String × List (String × TextRepr))
  | [] => []
  | x :: xs => insertGroupSorted x (sortGroupsByLen xs)

/-- The flattened, depth-sorted group list `to_toml` renders a table from. -/
def tomlGroups (m : List (String × TextRepr)) :
    List (List String × List (String × TextRepr)) :=
  sortGroupsByLen (mapEntriesRecursive m [] [])

/-- Rendering of one group in `to_toml` (src/text/toml.rs:79-94): a
`[dotted.path]` header for non-root groups, one `name = value` line per leaf,
and a blank line after every group. -/
def renderGroup (g : List String × List (String × TextRepr)) : String :=
  (if g.1 = [] then "" else "[" ++ String.intercalate "." g.1 ++ "]\n")
    ++ String.join (g.2.map (fun kv => kv.1 ++ " = " ++ tomlValue kv.2 ++ "\n"))
    ++ "\n"

/-- `TextRepr::to_toml` (src/text/toml.rs:64-119). -/
def toToml : TextRepr → String
  | .table m => String.join ((tomlGroups m).map renderGroup)
  | v => tomlValue v

/-! ## TOML-like parser (`TextRepr::from_toml`, src/text/toml.rs:121-184) -/

/-- `first_symbol` (src/text/mod.rs:39-47): pop characters until the first one
that is not a newline, space, tab or carriage return. -/
def firstSymbol : List Char → Option (Char × List Char)
  | [] => none
  | c :: rest =>
    if c = '\n' ∨ c = ' ' ∨ c = '\t' ∨ c = '\r' then firstSymbol rest
    else some (c, rest)

/-- The `[section.path]` header loop of `from_toml` (src/text/toml.rs:127-148):
consume until `]`, splitting segments on `.` (intermediate empty segments are
pushed as-is); end of input is `UnexpectedEOF` on the field "Outer Field Name";
an empty final segment is an `InvalidFormat` error. -/
def parseSection : List Char → List String → String →
    Except DeserializationError (List String × List Char)
  | [], _, _ => .error ⟨some "Outer Field Name", .unexpectedEOF⟩
  | c :: rest, acc, seg =>
    if c = ']' then
      if seg = "" then
        .error ⟨none, .invalidFormat "Outer field name is either empty or terminates incorrectly"⟩
      else .ok (acc ++ [seg], rest)
    else if c = '.' then parseSection rest (acc ++ [seg]) ""
    else parseSection rest acc (seg.push c)

/-- The key loop of `from_toml` (src/text/toml.rs:149-157): consume until `=`;
end of input is `UnexpectedEOF` annotated with the partial key. -/
def parseKey : List Char → String → Except DeserializationError (String × List Char)
  | [], key => .error ⟨some key, .unexpectedEOF⟩
  | c :: rest, key => if c = '=' then .ok (key, rest) else parseKey rest (key.push c)

/-- The value loop of `from_toml` (src/text/toml.rs:159-165): consume until a
newline (also consumed) or the end of input. -/
def takeLine : List Char → String → String × List Char
  | [], acc => (acc, [])
  | c :: rest, acc => if c = '\n' then (acc, rest) else takeLine rest (acc.push c)

/-- The array-literal item loop of `from_toml` (src/text/toml.rs:172-177):
each comma-split item is trimmed and classified by `from_str_value`, with
errors (and panics) propagating. -/
def parseArrayItems : List String → RunResult (List TextRepr)
  | [] => .ok []
  | s :: rest =>
    match fromStrValue (rustTrim s) with
    | .ok v =>
      match parseArrayItems rest with
      | .ok vs => .ok (v :: vs)
      | r => r
    | .error e => .error e
    | .panicked => .panicked
    | .outOfFuel => .outOfFuel

/-- The main loop of `from_toml` (src/text/toml.rs:126-181), fuelled by the
number of iterations (each iteration consumes at least the character returned
by `first_symbol`, so `data.length + 1` fuel can never run out). A value text
starting with `[` but of length 1 models the source's
`value.get(1..(value.len() - 1)).unwrap()` panic; `push_entry_path` onto a
non-table scalar propagates its panic. -/
def fromTomlLoop : Nat → TextRepr → List String → List Char → RunResult TextRepr
  | 0, _, _, _ => .outOfFuel
  | fuel + 1, out, outerPath, data =>
    match firstSymbol data with
    | none => .ok out
    | some (c, rest) =>
      if c = '[' then
        match parseSection rest [] "" with
        | .error e => .error e
        | .ok (path, rest') => fromTomlLoop fuel out path rest'
      else
        match parseKey rest (String.singleton c) with
        | .error e => .error e
        | .ok (rawKey, rest') =>
          let key := rustTrim rawKey
          let lineRest := takeLine rest' ""
          let value := rustTrim lineRest.1
          let newPath := (outerPath ++ [key]).reverse
          if headIs value '[' then
            if strLen value < 2 then .panicked
            else
              match parseArrayItems
                  (delimitCommaSplit (String.mk ((value.toList.drop 1).dropLast))) with
              | .ok arr =>
                match TextRepr.pushEntryPath out newPath (.array arr) with
                | none => .panicked
                | some out' => fromTomlLoop fuel out' outerPath lineRest.2
              | .error e => .error e
              | .panicked => .panicked
              | .outOfFuel => .outOfFuel
          else
            match fromStrValue value with
            | .ok v =>
              match TextRepr.pushEntryPath out newPath v with
              | none => .panicked
              | some out' => fromTomlLoop fuel out' outerPath lineRest.2
            | .error e => .error e
            | .panicked => .panicked
            | .outOfFuel => .outOfFuel

/-- `TextRepr::from_toml` (src/text/toml.rs:121-184). -/
def fromToml (data : String) : RunResult TextRepr :=
  fromTomlLoop (data.length + 1) .empty [] data.toList

/-! ## Binary codec (`src/bin.rs`)

Buffers are `List Nat` with elements below 256; `VecDeque<u8>` is consumed
from the head. -/

/-- `str::as_bytes` on the ASCII fragment of UTF-8 (code point = byte); every
concrete key and value below is ASCII. -/
def strBytes (s : String) : List Nat := s.toList.map Char.toNat

/-- Big-endian 4-byte encoding of a `u32` (`u32::to_be_bytes`). -/
def beBytes4 (n : Nat) : List Nat :=
  [n / 2 ^ 24 % 256, n / 2 ^ 16 % 256, n / 2 ^ 8 % 256, n % 256]

/-- Big-endian value of a byte list (`from_be_bytes`). -/
def beVal (bytes : List Nat) : Nat := bytes.foldl (fun acc b => acc * 256 + b) 0

/-- `split_first` / `split_first_vec` (src/bin.rs:121-135): take the first `n`
bytes or fail with `UnexpectedEOF`, leaving the buffer untouched on failure. -/
def splitFirst (n : Nat) (bytes : List Nat) :
    Except DeserializationErrorKind (List Nat × List Nat) :=
  if bytes.length < n then .error .unexpectedEOF
  else .ok (bytes.take n, bytes.drop n)

/-- `String::from_utf8` on the ASCII fragment: non-ASCII bytes are treated as
invalid (multi-byte sequences are not modelled; no concrete input uses them). -/
def asciiDecode (bytes : List Nat) : Option String :=
  if bytes.all (fun b => b < 128) then some (String.mk (bytes.map Char.ofNat)) else none

/-- `PrimitiveSerializer::serialize_string` for `Binary` (src/bin.rs:225-229):
a 4-byte big-endian length prefix followed by the raw bytes. -/
def binSerializeString (s : String) : List Nat :=
  beBytes4 (strBytes s).length ++ strBytes s

/-- `u8` encoding (`to_be_bytes` of a `u8` is its single byte). -/
def binSerializeU8 (n : Nat) : List Nat := [n % 256]

/-- `Serializer::serialize_key` for `Binary` (src/bin.rs:254-257) at a string
value: the key's raw bytes (no delimiter, no length) directly followed by the
value's encoding. -/
def binSerializeKeyString (key s : String) : List Nat :=
  strBytes key ++ binSerializeString s

/-- `Serializer::serialize_key` for `Binary` at a `u8` value. -/
def binSerializeKeyU8 (key : String) (n : Nat) : List Nat :=
  strBytes key ++ binSerializeU8 n

/-- `PrimitiveSerializer::deserialize_string` for `Binary` (src/bin.rs:231-234),
returning the mutated buffer alongside the result: the 4 size bytes are
consumed even when the remainder is too short, and the string bytes are
consumed even when UTF-8 validation fails. -/
def binDeserializeStringSt (bytes : List Nat) :
    Except DeserializationError String × List Nat :=
  match splitFirst 4 bytes with
  | .error k => (.error ⟨none, k⟩, bytes)
  | .ok pr =>
    let size := beVal pr.1
    if pr.2.length < size then (.error ⟨none, .unexpectedEOF⟩, pr.2)
    else
      match asciiDecode (pr.2.take size) with
      | some s => (.ok s, pr.2.drop size)
      | none => (.error ⟨none, .fromUTF8Error⟩, pr.2.drop size)

/-- `deserialize_string` in the success-threading form used by value decoding. -/
def binDeserializeString (bytes : List Nat) :
    Except DeserializationError (String × List Nat) :=
  match binDeserializeStringSt bytes with
  | (.ok s, rest) => .ok (s, rest)
  | (.error e, _) => .error e

/-- `deserialize_num::<u8>` for `Binary`: `u8::from_bin` is
`from_be_bytes(split_first::<1>)`, with the error kind lifted to a field-less
`DeserializationError` (src/bin.rs:221-223, src/primitives.rs:56-59). -/
def binDeserializeU8 (bytes : List Nat) :
    Except DeserializationError (Nat × List Nat) :=
  match splitFirst 1 bytes with
  | .error k => .error ⟨none, k⟩
  | .ok pr => .ok (beVal pr.1, pr.2)

/-- `deserialize_bytes` for `Binary` (src/bin.rs:242-245): read a 4-byte
length, then `self.drain(0..size)` — which PANICS when `size` exceeds the
remaining length, because `drain` does not bounds-check against EOF. -/
def binDeserializeBytes (bytes : List Nat) : RunResult (List Nat × List Nat) :=
  match splitFirst 4 bytes with
  | .error k => .error ⟨none, k⟩
  | .ok pr =>
    let size := beVal pr.1
    if pr.2.length < size then .panicked
    else .ok (pr.2.take size, pr.2.drop size)

/-- Window scan of `find_key` (src/bin.rs:156-167): first index whose window
equals the key's bytes, returning the index just after the match. (Rust's
`windows(0)` would panic; the empty-key case never arises for the keys used
and is given the value `some i` of the immediate trivial match.) -/
def findKeyAux : List Nat → List Nat → Nat → Option Nat
  | [], kb, i => if kb = [] then some i else none
  | b :: rest, kb, i =>
    if (b :: rest).take kb.length = kb then some (i + kb.length)
    else findKeyAux rest kb (i + 1)

/-- `find_key` (src/bin.rs:158): linear byte-window search for the key's raw
bytes anywhere in the buffer. -/
def findKey (bytes : List Nat) (key : String) : Option Nat :=
  findKeyAux bytes (strBytes key) 0

/-- `key_deserialize` (src/bin.rs:188-199): locate the key, split the buffer
after the match, decode the value from the remainder, splice the untouched
`bytes.take idx` (which still contains the key bytes themselves) back in front
of what the decoder did not consume. A missing key is `MissingField` named by
the key; a nested decode error is wrapped in `Nested` and annotated with the
key. -/
def keyDeserialize {α : Type} (bytes : List Nat) (key : String)
    (f : List Nat → Except DeserializationError (α × List Nat)) :
    Except DeserializationError (α × List Nat) :=
  match findKey bytes key with
  | none => .error ⟨some key, .missingField⟩
  | some idx =>
    match f (bytes.drop idx) with
    | .error e => .error ⟨some key, .nested e.field e.kind⟩
    | .ok r => .ok (r.1, bytes.take idx ++ r.2)

/-- `Serializer::try_get_key` for `Binary` (src/bin.rs:267-269):
`self.deserialize_string().ok()` — it CONSUMES a length-prefixed string from
the front of the buffer (there is no undo), then runs `K::from_str` (modelled
at `K = String`, where `from_str` is infallible). The mutated buffer is
returned alongside the answer. -/
def binTryGetKey (bytes : List Nat) : Option String × List Nat :=
  match binDeserializeStringSt bytes with
  | (.ok s, rest) => (some s, rest)
  | (.error _, rest) => (none, rest)

/-! ## TextRepr serializer pieces (`src/text/mod.rs`, `src/primitives.rs`) -/

/-- `Serializer::try_get_key` for `TextRepr` (src/text/mod.rs:257-262): peek
the first key of a table (`keys().next()`), no mutation (`K = String`, whose
`from_str` is infallible). The receiver is returned unchanged alongside the
answer, mirroring the `&mut self` signature. -/
def textTryGetKey (t : TextRepr) : Option String × TextRepr :=
  match t with
  | .table m => (m.head?.map (fun kv => kv.1), t)
  | _ => (none, t)

/-- `NumberType::from_i64` for `u8` from the `serial_int!` macro
(src/primitives.rs:48-51): it is `Some(int as u8)` — a two's-complement
truncation that NEVER returns `None`, wrapping negative input instead of
rejecting it. -/
def fromI64U8 (n : Int) : Option Nat := some ((n % 256).toNat)

/-- `PrimitiveSerializer::deserialize_num::<u8>` for `TextRepr`
(src/text/mod.rs:180-186): pull a value, then convert an `Integer` through
`from_i64` (the `ok_or_else` arm carries `InvalidType{"unsigned int","signed int"}`)
or a `Float` through `from_f64` (always `None` for integer targets). -/
def textDeserializeNumU8 (t : TextRepr) :
    Except DeserializationError (Nat × TextRepr) :=
  match TextRepr.pullValue t with
  | .error k => .error ⟨none, k⟩
  | .ok vr =>
    match vr.1 with
    | .integer x =>
      match fromI64U8 x with
      | some n => .ok (n, vr.2)
      | none => .error ⟨none, .invalidType "unsigned int" "signed int"⟩
    | .float _ => .error ⟨none, .invalidType "integer" "float"⟩
    | _ => .error ⟨none, .invalidType "number" "todo!"⟩

/-! ## Sequence container decode (`impl Deserialize for Vec<V>`, src/common.rs:47-62) -/

/-- The `Vec<V>` decode loop, generic over the backend state `σ` and element
decoder `dec` (the backend's `Serializer::deserialize`): decode elements until
one fails; a failure whose kind is `UnexpectedEOF` terminates the loop
successfully with the elements collected so far, any other error aborts the
whole decode. The loop is fuelled (`none` = out of fuel); the source loop has
no termination guarantee of its own, and every theorem below supplies enough
fuel. -/
def vecDeserialize {σ α : Type} (dec : σ → Except DeserializationError (α × σ)) :
    Nat → σ → Option (Except DeserializationError (List α))
  | 0, _ => none
  | fuel + 1, s =>
    match dec s with
    | .error e =>
      if e.kind = DeserializationErrorKind.unexpectedEOF then some (.ok [])
      else some (.error e)
    | .ok r =>
      match vecDeserialize dec fuel r.2 with
      | none => none
      | some (.ok xs) => some (.ok (r.1 :: xs))
      | some (.error e) => some (.error e)

/-! ## Composite scenarios used by the claims -/

/-- The keyed binary buffer of the spec's example struct `{name, age}`:
`serialize_key("name", name)` then `serialize_key("age", age)` with `age` a
`u8`. -/
def encNameAge (nameVal : String) (ageVal : Nat) : List Nat :=
  binSerializeKeyString "name" nameVal ++ binSerializeKeyU8 "age" ageVal

/-- Keyed decode in declared order: `deserialize_key("name")` then
`deserialize_key("age")`, threading the spliced buffer. -/
def decodeNameThenAge (buf : List Nat) :
    Except DeserializationError ((String × Nat) × List Nat) :=
  match keyDeserialize buf "name" binDeserializeString with
  | .error e => .error e
  | .ok r1 =>
    match keyDeserialize r1.2 "age" binDeserializeU8 with
    | .error e => .error e
    | .ok r2 => .ok ((r1.1, r2.1), r2.2)

/-- Keyed decode in swapped order: `deserialize_key("age")` then
`deserialize_key("name")`. -/
def decodeAgeThenName (buf : List Nat) :
    Except DeserializationError ((String × Nat) × List Nat) :=
  match keyDeserialize buf "age" binDeserializeU8 with
  | .error e => .error e
  | .ok r1 =>
    match keyDeserialize r1.2 "name" binDeserializeString with
    | .error e => .error e
    | .ok r2 => .ok ((r2.1, r1.1), r2.2)

/-- Project the decoded (name, age) pair out of a keyed decode result. -/
def decodedFields (r : Except DeserializationError ((String × Nat) × List Nat)) :
    Option (String × Nat) :=
  match r with
  | .ok x => some x.1
  | .error _ => none

/-- All leaf values recorded in a group list are non-tables (the invariant
`map_entries_recursive` maintains, which keeps `tomlValue`'s table arm
unreachable in `toToml`). -/
def groupsNoTable (entries : List (List String × List (String × TextRepr))) : Prop :=
  ∀ g ∈ entries, ∀ kv ∈ g.2, kv.2.isTable = false

/-! ## Helper lemmas -/

theorem mem_listInsert {m : List (String × TextRepr)} {key : String} {v : TextRepr}
    {kv : String × TextRepr} (h : kv ∈ listInsert m key v) : kv ∈ m ∨ kv = (key, v) := by
  unfold listInsert at h
  split at h
  · obtain ⟨kv', hkv', heq⟩ := List.mem_map.mp h
    by_cases h1 : kv'.1 = key
    · rw [if_pos h1] at heq
      exact Or.inr heq.symm
    · rw [if_neg h1] at heq
      exact Or.inl (heq ▸ hkv')
  · rcases List.mem_append.mp h with h2 | h2
    · exact Or.inl h2
    · exact Or.inr (by simpa using h2)

theorem insertEntryGroups_noTable {entries : List (List String × List (String × TextRepr))}
    {root : List String} {key : String} {v : TextRepr}
    (h : groupsNoTable entries) (hv : v.isTable = false) :
    groupsNoTable (insertEntryGroups entries root key v) := by
  intro g hg kv hkv
  unfold insertEntryGroups at hg
  split at hg
  · obtain ⟨g', hg', heq⟩ := List.mem_map.mp hg
    by_cases h1 : g'.1 = root
    · rw [if_pos h1] at heq
      subst heq
      rcases mem_listInsert hkv with h2 | h2
      · exact h g' hg' kv h2
      · rw [h2]; exact hv
    · rw [if_neg h1] at heq
      subst heq
      exact h g' hg' kv hkv
  · rcases List.mem_append.mp hg with h2 | h2
    · exact h g h2 kv hkv
    · have hg2 : g = (root, [(key, v)]) := by simpa using h2
      subst hg2
      have hkv2 : kv = (key, v) := by simpa using hkv
      rw [hkv2]; exact hv

mutual

/-- `map_entries_recursive` never records a table as a leaf: table values are
flattened recursively instead (justifies `tomlValue`'s unreachable table arm). -/
theorem mapEntriesRecursive_not_table :
    ∀ (m : List (String × TextRepr)) (root : List String)
      (entries : List (List String × List (String × TextRepr))),
      groupsNoTable entries → groupsNoTable (mapEntriesRecursive m root entries)
  | [], _, _, h => h
  | (key, v) :: rest, root, entries, h =>
    mapEntriesRecursive_not_table rest root _ (mapEntryValue_not_table key v root entries h)

theorem mapEntryValue_not_table :
    ∀ (key : String) (v : TextRepr) (root : List String)
      (entries : List (List String × List (String × TextRepr))),
      groupsNoTable entries → groupsNoTable (mapEntryValue key v root entries)
  | key, .table x, root, entries, h => mapEntriesRecursive_not_table x (root ++ [key]) entries h
  | _, .empty, _, _, h => insertEntryGroups_noTable h rfl
  | _, .str _, _, _, h => insertEntryGroups_noTable h rfl
  | _, .integer _, _, _, h => insertEntryGroups_noTable h rfl
  | _, .float _, _, _, h => insertEntryGroups_noTable h rfl
  | _, .boolean _, _, _, h => insertEntryGroups_noTable h rfl
  | _, .array _, _, _, h => insertEntryGroups_noTable h rfl

end

/-- `tomlValue` agrees with `to_toml` on every non-table value, so rendering
group leaves through `tomlValue` is exactly what the source's
`value.to_toml()` computes there. -/
theorem tomlValue_eq_toToml {v : TextRepr} (hv : v.isTable = false) :
    tomlValue v = toToml v := by
  cases v <;> first | rfl | exact absurd hv (by simp [TextRepr.isTable])

theorem mem_insertGroupSorted {g x : List String × List (String × TextRepr)} :
    ∀ l, x ∈ insertGroupSorted g l → x = g ∨ x ∈ l := by
  intro l
  induction l with
  | nil =>
    intro h
    simp only [insertGroupSorted] at h
    exact Or.inl (by simpa using h)
  | cons y ys ih =>
    intro h
    simp only [insertGroupSorted] at h
    split at h
    · rcases List.mem_cons.mp h with h1 | h1
      · exact Or.inr (h1 ▸ List.mem_cons_self y ys)
      · rcases ih h1 with h2 | h2
        · exact Or.inl h2
        · exact Or.inr (List.mem_cons_of_mem y h2)
    · rcases List.mem_cons.mp h with h1 | h1
      · exact Or.inl h1
      · exact Or.inr h1

theorem pairwise_insertGroupSorted {g : List String × List (String × TextRepr)}
    {l : List (List String × List (String × TextRepr))}
    (h : l.Pairwise (fun a b => groupLen a ≤ groupLen b)) :
    (insertGroupSorted g l).Pairwise (fun a b => groupLen a ≤ groupLen b) := by
  induction l with
  | nil => simp [insertGroupSorted]
  | cons y ys ih =>
    rcases List.pairwise_cons.mp h with ⟨hy, hys⟩
    simp only [insertGroupSorted]
    by_cases hlt : groupLen y < groupLen g
    · rw [if_pos hlt]
      refine List.pairwise_cons.mpr ⟨?_, ih hys⟩
      intro z hz
      rcases mem_insertGroupSorted ys hz with h1 | h1
      · exact h1 ▸ Nat.le_of_lt hlt
      · exact hy z h1
    · rw [if_neg hlt]
      refine List.pairwise_cons.mpr ⟨?_, h⟩
      intro z hz
      rcases List.mem_cons.mp hz with h1 | h1
      · rw [h1]; exact Nat.le_of_not_lt hlt
      · exact Nat.le_trans (Nat.le_of_not_lt hlt) (hy z h1)

theorem pairwise_sortGroupsByLen :
    ∀ l : List (List String × List (String × TextRepr)),
      (sortGroupsByLen l).Pairwise (fun a b => groupLen a ≤ groupLen b)
  | [] => by simp [sortGroupsByLen]
  | x :: xs => pairwise_insertGroupSorted (pairwise_sortGroupsByLen xs)

/-- One unfolding step of the fuelled `Vec` decode loop. -/
theorem vecDeserialize_succ {σ α : Type}
    (dec : σ → Except DeserializationError (α × σ)) (fuel : Nat) (s : σ) :
    vecDeserialize dec (fuel + 1) s
      = match dec s with
        | .error e =>
          if e.kind = DeserializationErrorKind.unexpectedEOF then some (.ok [])
          else some (.error e)
        | .ok r =>
          match vecDeserialize dec fuel r.2 with
          | none => none
          | some (.ok xs) => some (.ok (r.1 :: xs))
          | some (.error e) => some (.error e) := rfl

/-! ## Claim theorems -/

/-- C1 (counterexample): the claim's universal round-trip for "every table of
scalar leaves nested only through named entries" is false. The single-entry
table `{a: "x\ny"}` has one scalar (string) leaf, but `to_toml` prints the
newline verbatim inside the quoted value, and the line-based `from_toml` cuts
the value at the newline, failing with `InvalidFormat` instead of
reconstructing the table. -/
theorem C1_scalar_leaf_roundtrip_fails :
    fromToml (toToml (.table [("a", .str "x\ny")]))
      = .error ⟨none, .invalidFormat "String is missing terminating apostrophe"⟩
    ∧ fromToml (toToml (.table [("a", .str "x\ny")]))
      ≠ .ok (.table [("a", .str "x\ny")]) := by
  refine ⟨rfl, fun h => ?_⟩
  have h' : (RunResult.error
        (⟨none, .invalidFormat "String is missing terminating apostrophe"⟩ :
          DeserializationError) : RunResult TextRepr)
      = RunResult.ok (.table [("a", .str "x\ny")]) := h
  exact RunResult.noConfusion h'

/-- C1 (amended): for the nested value `{outer: {inner: 1}}`, `to_toml`
produces exactly a `[outer]` section containing the line `inner = 1`, and
`from_toml` on that printed string reconstructs the original nested table.
(The round trip holds for this shape; it does not extend to every table of
scalar leaves — see the counterexample.) -/
theorem C1_nested_path_roundtrip :
    toToml (.table [("outer", .table [("inner", .integer 1)])])
      = "[outer]\ninner = 1\n\n"
    ∧ fromToml "[outer]\ninner = 1\n\n"
      = .ok (.table [("outer", .table [("inner", .integer 1)])]) :=
  ⟨rfl, rfl⟩

/-- C2 (counterexample): the claim's universal quantification over all field
values fails. With `{name: "age", age: 5}` the encoded value bytes of `name`
contain the key bytes of `age`, so `find_key("age")` matches inside the string
value when `age` is decoded first: the swapped order yields `age = 97` (the
byte of `'a'`) instead of `5`. -/
theorem C2_keyed_reorder_collision :
    decodedFields (decodeNameThenAge (encNameAge "age" 5)) = some ("age", 5)
    ∧ decodedFields (decodeAgeThenName (encNameAge "age" 5)) = some ("age", 97)
    ∧ decodedFields (decodeAgeThenName (encNameAge "age" 5))
      ≠ decodedFields (decodeNameThenAge (encNameAge "age" 5)) :=
  ⟨rfl, rfl, by decide⟩

/-- C2 (amended): for the spec's example buffer, serializing
`{name: "a", age: 5}` by key and then decoding `age` before `name` yields the
same pair of field values `("a", 5)` as decoding in declared order —
`key_deserialize` locates each key with `find_key`, hands the split-off
remainder to the value decoder, and splices the untouched front back on. -/
theorem C2_keyed_reorder_example :
    decodedFields (decodeNameThenAge (encNameAge "a" 5)) = some ("a", 5)
    ∧ decodedFields (decodeAgeThenName (encNameAge "a" 5)) = some ("a", 5) :=
  ⟨rfl, rfl⟩

/-- C3: the `Vec` decode loop, for any backend state and element decoder that
decodes one element off an encoded sequence at a time and reports
`UnexpectedEOF` on the empty sequence, returns `Ok` with all `N` elements in
encoding order (for `N = 0`, the empty vector — EOF terminates, it is not an
error); and any element-decode failure of a different kind is returned as the
error of the whole decode. -/
theorem C3_vec_decode_eof_terminated {σ α : Type}
    (encodeList : List α → σ) (dec : σ → Except DeserializationError (α × σ))
    (hcons : ∀ (a : α) (tl : List α), dec (encodeList (a :: tl)) = .ok (a, encodeList tl))
    (hnil : ∃ e, dec (encodeList []) = .error e
      ∧ e.kind = DeserializationErrorKind.unexpectedEOF)
    (es : List α) :
    vecDeserialize dec (es.length + 1) (encodeList es) = some (.ok es)
    ∧ ∀ (s : σ) (e : DeserializationError) (fuel : Nat),
        dec s = .error e → e.kind ≠ DeserializationErrorKind.unexpectedEOF →
        vecDeserialize dec (fuel + 1) s = some (.error e) := by
  constructor
  · induction es with
    | nil =>
      obtain ⟨e, he, hk⟩ := hnil
      rw [List.length_nil, vecDeserialize_succ, he]
      simp [hk]
    | cons a tl ih =>
      rw [List.length_cons, vecDeserialize_succ, hcons a tl]
      simp [ih]
  · intro s e fuel hde hke
    rw [vecDeserialize_succ, hde]
    simp [hke]

/-- C3 (witness): a buffer holding exactly the two one-byte elements 3 and 5,
decoded with the binary u8 decoder, yields `Ok [3, 5]`. -/
theorem C3_vec_decode_eof_terminated_witness :
    vecDeserialize binDeserializeU8 3 [3, 5] = some (.ok [3, 5]) :=
  (C3_vec_decode_eof_terminated (fun es => es) binDeserializeU8
    (fun a tl => by simp [binDeserializeU8, splitFirst, beVal])
    ⟨⟨none, .unexpectedEOF⟩, rfl, rfl⟩ [3, 5]).1

/-- C4: both cited parsing functions PANIC on the cited malformed inputs
instead of returning a value-level error: `Binary::deserialize_bytes` with a
4-byte length prefix of 5 and no remaining bytes reaches
`self.drain(0..5)` on an empty buffer, and `from_toml` on the line `a = [`
reaches `value.get(1..0).unwrap()`. The claim (and the spec's no-panic
policy) is violated by the code. -/
theorem C4_parsers_panic_on_malformed :
    binDeserializeBytes [0, 0, 0, 5] = .panicked ∧ fromToml "a = [" = .panicked :=
  ⟨rfl, rfl⟩

/-- C5: pushing `Integer 1` then `Integer 2` into an `Empty` value promotes to
an array with the NEWLY pushed value first — `Array [2, 1]`, not the claimed
insertion order `Array [1, 2]` (the source's promotion arm runs
`push_front(value)` then `push_front(other)`). The first push replacing
`Empty` by the value itself is as claimed. -/
theorem C5_push_value_promotion_reversed :
    TextRepr.pushValue .empty (.integer 1) = some (.integer 1)
    ∧ (Option.bind (TextRepr.pushValue .empty (.integer 1))
        (fun t => TextRepr.pushValue t (.integer 2)))
      = some (.array [.integer 2, .integer 1])
    ∧ (Option.bind (TextRepr.pushValue .empty (.integer 1))
        (fun t => TextRepr.pushValue t (.integer 2)))
      ≠ some (.array [.integer 1, .integer 2]) := by
  refine ⟨rfl, rfl, fun h => ?_⟩
  have h1 := Option.some.inj h
  have h2 := TextRepr.array.inj h1
  have h3 := (List.cons_eq_cons.mp h2).1
  have h4 := TextRepr.integer.inj h3
  exact absurd h4 (by decide)

/-- C6 (counterexample): `pull_value()` on a `Table` does NOT report an
`InvalidType` error — the source's table arm is commented out, so the table
falls into the catch-all arm and is returned whole (successfully), leaving
`Empty` behind. -/
theorem C6_pull_value_table_succeeds :
    TextRepr.pullValue (.table [("a", .integer 1)])
      = .ok (.table [("a", .integer 1)], .empty) := rfl

/-- C6 (amended): `pull_value()` removes and returns the front element of an
`Array`, fails with `UnexpectedEOF` when the array is exhausted, and on ANY
non-array value — tables included — takes the whole value, leaving `Empty`
behind (no `InvalidType` error for tables). -/
theorem C6_pull_value_spec (x : TextRepr) (xs : List TextRepr) (v : TextRepr)
    (hv : v.isArray = false) :
    TextRepr.pullValue (.array (x :: xs)) = .ok (x, .array xs)
    ∧ TextRepr.pullValue (.array []) = .error .unexpectedEOF
    ∧ TextRepr.pullValue v = .ok (v, .empty) := by
  refine ⟨rfl, rfl, ?_⟩
  cases v <;> first | rfl | exact absurd hv (by simp [TextRepr.isArray])

/-- C6 (witness): the amended behaviour at a one-element array and at a
single-entry table. -/
theorem C6_pull_value_spec_witness :
    TextRepr.pullValue (.array [.integer 1]) = .ok (.integer 1, .array [])
    ∧ TextRepr.pullValue (.array []) = .error .unexpectedEOF
    ∧ TextRepr.pullValue (.table [("b", .integer 2)])
      = .ok (.table [("b", .integer 2)], .empty) :=
  C6_pull_value_spec (.integer 1) [] (.table [("b", .integer 2)]) rfl

/-- C7: `from_i64` for the unsigned target `u8` is `Some(int as u8)` — on the
negative input `-1` it returns `Some 255` (two's-complement wrap), never
`None`, so `deserialize_num` on `TextRepr::Integer(-1)` succeeds with the
wrapped value `255` instead of rejecting with `InvalidType` as the claim (and
the spec's lossless-scalar policy) requires; the
`InvalidType{"unsigned int","signed int"}` arm is dead code for every integer
target. -/
theorem C7_unsigned_from_negative_wraps :
    fromI64U8 (-1) = some 255
    ∧ textDeserializeNumU8 (.integer (-1)) = .ok (255, .empty) :=
  ⟨rfl, rfl⟩

/-- C8: `delimit_comma_split` violates the claim: the item after the final
comma is never pushed to the output (the loop ends without flushing the
in-progress item), and every item after the first retains the leading comma
that was appended after the split. `"1,2"` yields `["1"]` — not
`["1", "2"]` — and a comma inside a quoted span correctly does not split, but
the trailing item is again dropped. -/
theorem C8_comma_split_drops_final_item :
    delimitCommaSplit "1,2" = ["1"]
    ∧ delimitCommaSplit "\"a,b\",c" = ["\"a,b\""] :=
  ⟨rfl, rfl⟩

/-- C9 (counterexample): `try_get_key` on the binary backend is NOT a pure
peek: on the buffer `[0,0,0,0]` (a length-prefixed empty string) it answers
`some ""` but consumes all four bytes — the state after the call is `[]`, not
the original buffer, because the implementation calls
`self.deserialize_string()` which drains the prefix and content. -/
theorem C9_bin_try_get_key_mutates :
    binTryGetKey [0, 0, 0, 0] = (some "", [])
    ∧ ([] : List Nat) ≠ [0, 0, 0, 0] :=
  ⟨rfl, by decide⟩

/-- C9 (amended): `try_get_key` is a pure peek on the `TextRepr` backend only:
it returns the table's first remaining key (or `none`) and leaves the value
unchanged, so repeated calls agree; the binary backend's implementation
instead consumes a length-prefixed string from the buffer. -/
theorem C9_try_get_key_text_pure (t : TextRepr) :
    (textTryGetKey t).2 = t
    ∧ textTryGetKey ((textTryGetKey t).2) = textTryGetKey t := by
  cases t <;> exact ⟨rfl, rfl⟩

/-- C10: the flattened section groups `to_toml` renders are sorted by
ascending dotted-path depth, so every root group (empty path) precedes every
`[section]` group; concretely, reparsing the printed form of
`{a: 1, b: {c: 2}}` assigns `a` to the root table, reconstructing the
original. -/
theorem C10_sections_sorted_by_depth (m : List (String × TextRepr)) :
    (tomlGroups m).Pairwise (fun a b => a.1.length ≤ b.1.length)
    ∧ (tomlGroups m).Pairwise (fun a b => b.1 = [] → a.1 = [])
    ∧ fromToml (toToml (.table [("a", .integer 1), ("b", .table [("c", .integer 2)])]))
      = .ok (.table [("a", .integer 1), ("b", .table [("c", .integer 2)])]) := by
  refine ⟨pairwise_sortGroupsByLen _, ?_, rfl⟩
  refine (pairwise_sortGroupsByLen _).imp ?_
  intro a b hab hb
  have hab' : a.1.length ≤ b.1.length := hab
  rw [hb] at hab'
  exact List.eq_nil_of_length_eq_zero (Nat.le_zero.mp hab')

end SimpleSerde
